import Mathlib

/-!
Verification development for the `simpile` linked-chunk allocator
(`src/linked.rs`, `src/space.rs`).

The allocator works over a contiguous byte-addressable space.  We model the
machine memory as a total function from byte addresses to byte values, with
64-bit wrapping pointer arithmetic (`% 2^64`), and translate each Rust
function of the allocator into a Lean function over this memory model.
All `u64` metadata accesses in the source are 8-byte little-endian loads and
stores, modelled by `readW`/`writeW`.
-/

set_option maxHeartbeats 1000000
set_option maxRecDepth 1000000

namespace Simpile

/-- Modulus of 64-bit machine words and pointers. -/
def W : Nat := 2 ^ 64

/-- Byte-addressed memory: a total map from (wrapped) addresses to byte values. -/
def Mem : Type := Nat → Nat

/-- Wrapping pointer/word addition, as performed on `usize`/raw pointers. -/
def padd (a b : Nat) : Nat := (a + b) % W

/-- Wrapping pointer/word subtraction (two's complement), as in `ptr.offset(-8)`. -/
def psub (a b : Nat) : Nat := (a + (W - b % W)) % W

/-- Read one byte of memory. -/
def readByte (m : Mem) (a : Nat) : Nat := m (a % W)

/-- Write one byte of memory. -/
def writeByte (m : Mem) (a v : Nat) : Mem :=
  fun x => if x = a % W then v % 256 else m x

/-- Read a 64-bit little-endian word, as in `*ptr.cast::<u64>()`. -/
def readW (m : Mem) (a : Nat) : Nat :=
  readByte m a
    + 256 ^ 1 * readByte m (padd a 1)
    + 256 ^ 2 * readByte m (padd a 2)
    + 256 ^ 3 * readByte m (padd a 3)
    + 256 ^ 4 * readByte m (padd a 4)
    + 256 ^ 5 * readByte m (padd a 5)
    + 256 ^ 6 * readByte m (padd a 6)
    + 256 ^ 7 * readByte m (padd a 7)

/-- Write a 64-bit little-endian word, as in `*ptr.cast::<u64>() = v`. -/
def writeW (m : Mem) (a v : Nat) : Mem :=
  writeByte
    (writeByte
      (writeByte
        (writeByte
          (writeByte
            (writeByte
              (writeByte
                (writeByte m a v)
                (padd a 1) (v / 256 ^ 1))
              (padd a 2) (v / 256 ^ 2))
            (padd a 3) (v / 256 ^ 3))
          (padd a 4) (v / 256 ^ 4))
        (padd a 5) (v / 256 ^ 5))
      (padd a 6) (v / 256 ^ 6))
    (padd a 7) (v / 256 ^ 7)

/-- Rust: `core::alloc::Layout` — a size and a power-of-two alignment.  The
validity conditions of `Layout::from_size_align` are carried as hypotheses of
the theorems below. -/
structure Layout where
  size : Nat
  align : Nat

/-- Rust: `<*mut u8>::align_offset(align)` for a byte pointer: the smallest
offset that brings the address to the alignment, `(align - addr % align) % align`. -/
def align_offset (addr al : Nat) : Nat := (al - addr % al) % al

namespace Chunk

/-- Rust: `Chunk::META_SIZE`. -/
def META_SIZE : Nat := 8

/-- Rust: `Chunk::MIN_SIZE = META_SIZE + 24` (8 bytes prev, 8 bytes next, 8 bytes size). -/
def MIN_SIZE : Nat := META_SIZE + 24

/-- Rust: `Chunk::get_in_use`: `meta & (1 << IN_USE_BIT) != 0`, bit 0 of the meta word. -/
def get_in_use (m : Mem) (c : Nat) : Bool := decide (readW m c % 2 = 1)

/-- Rust: `Chunk::get_lower_in_use`: `meta & (1 << LOWER_IN_USE_BIT) != 0`, bit 1. -/
def get_lower_in_use (m : Mem) (c : Nat) : Bool := decide (readW m c / 2 % 2 = 1)

/-- Rust: `Chunk::set_lower_in_use`:
`*meta = (*meta & !(1 << LOWER_IN_USE_BIT)) | ((lower_in_use as u64) << LOWER_IN_USE_BIT)`.
Clearing bit 1 and OR-ing in the new bit is subtracting the old bit value and
adding the new one. -/
def set_lower_in_use (m : Mem) (c : Nat) (b : Bool) : Mem :=
  let meta := readW m c
  writeW m c (meta - meta / 2 % 2 * 2 + (if b then 2 else 0))

/-- Rust: `Chunk::get_size`: `(meta & !META_MASK) as usize` — the meta word
with its low three flag bits cleared. -/
def get_size (m : Mem) (c : Nat) : Nat :=
  let meta := readW m c
  meta - meta % 8

/-- Rust: `Chunk::get_prev` — free-list predecessor pointer at offset 8,
`None` when null. -/
def get_prev (m : Mem) (c : Nat) : Option Nat :=
  let p := readW m (padd c 8)
  if p = 0 then none else some p

/-- Rust: `Chunk::set_prev` (null for `None`). -/
def set_prev (m : Mem) (c : Nat) (prev : Option Nat) : Mem :=
  writeW m (padd c 8) (prev.getD 0)

/-- Rust: `Chunk::get_next` — free-list successor pointer at offset 16,
`None` when null. -/
def get_next (m : Mem) (c : Nat) : Option Nat :=
  let p := readW m (padd c 16)
  if p = 0 then none else some p

/-- Rust: `Chunk::set_next` (null for `None`). -/
def set_next (m : Mem) (c : Nat) (next : Option Nat) : Mem :=
  writeW m (padd c 16) (next.getD 0)

/-- Rust: `Chunk::is_top`: the chunk with no next chunk. -/
def is_top (m : Mem) (c : Nat) : Bool := (get_next m c).isNone

/-- Rust: `Chunk::set_in_use_and_size`.  The two meta stores happen in the
source order; `(meta & !(1 << IN_USE_BIT)) | in_use` replaces bit 0 and
`(meta & META_MASK) | size` keeps the low three bits and ORs in `size`, whose
low three bits are zero (debug-asserted in the source), so both ORs are
additions.  The `LOWER_IN_USE` propagation to the higher chunk and the footer
store follow, as in the source. -/
def set_in_use_and_size (m : Mem) (c : Nat) (in_use : Bool) (size : Nat) : Mem :=
  let prev_in_use := get_in_use m c
  let meta0 := readW m c
  let m1 := writeW m c (meta0 - meta0 % 2 + (if in_use then 1 else 0))
  let meta1 := readW m1 c
  let m2 := writeW m1 c (meta1 % 8 + size)
  let m3 :=
    if prev_in_use || in_use || ! (get_next m2 c).isNone then
      set_lower_in_use m2 (padd c (get_size m2 c)) in_use
    else m2
  if ! in_use then
    writeW m3 (padd c (psub size 8)) size
  else m3

/-- Rust: `Chunk::get_user_data`: lowest aligned address at or above
`data + 8` whose extent fits in the chunk, `None` if the chunk is too small.
Both sides of the comparison are `usize` arithmetic. -/
def get_user_data (m : Mem) (c : Nat) (l : Layout) : Option Nat :=
  let addr := padd c 8
  let ao := align_offset addr l.align
  if padd l.size ao > psub (get_size m c) META_SIZE then none
  else some (padd addr ao)

/-- Rust: `Chunk::from_user_data`: recover the owning chunk from a user
pointer; for `align > 8` a cleared meta word at `user_data - 8` is an
alignment-padding indicator holding the offset back to the chunk base. -/
def from_user_data (m : Mem) (user_data : Nat) (l : Layout) : Nat :=
  let c := psub user_data 8
  if l.align ≤ 8 then c
  else if get_in_use m c then c
  else psub c (get_size m c)

/-- Rust: `Chunk::get_higher_chunk`. -/
def get_higher_chunk (m : Mem) (c : Nat) : Nat := padd c (get_size m c)

/-- Rust: `Chunk::get_free_higher_chunk`. -/
def get_free_higher_chunk (m : Mem) (c : Nat) : Option Nat :=
  let h := get_higher_chunk m c
  if get_in_use m h then none else some h

/-- Rust: `Chunk::get_free_lower_chunk`: when `LOWER_IN_USE` is clear, the
footer word just below holds the lower chunk's size. -/
def get_free_lower_chunk (m : Mem) (c : Nat) : Option Nat :=
  if get_lower_in_use m c then none
  else
    let lower_size := readW m (psub c 8)
    some (psub c lower_size)

/-- Rust: `Chunk::split`.  Returns `none` for the `unwrap` panic on a chunk
that cannot fit the layout (all call sites have checked the fit), otherwise
the new memory and the optional remainder chunk. -/
def split (m : Mem) (c : Nat) (l : Layout) : Option (Mem × Option Nat) :=
  match get_user_data m c l with
  | none => none
  | some user_data =>
    let padding_size := psub (psub user_data 8) c
    let new_size0 := Nat.max (padd (padd META_SIZE padding_size) l.size) MIN_SIZE
    let new_size := if new_size0 % 8 ≠ 0 then new_size0 + (8 - new_size0 % 8) else new_size0
    let remain_size := psub (get_size m c) new_size
    if remain_size < MIN_SIZE then
      some (m, none)
    else
      let remain := padd c new_size
      let m1 := set_in_use_and_size m remain false remain_size
      let m2 := set_in_use_and_size m1 c (get_in_use m1 c) new_size
      some (m2, some remain)

/-- Rust: `Chunk::coalesce`: absorb the immediately higher chunk. -/
def coalesce (m : Mem) (c other : Nat) : Mem :=
  set_in_use_and_size m c (get_in_use m c) (padd (get_size m c) (get_size m other))

end Chunk

namespace Overlay

/-- Rust: `Overlay::EXACT_BINS_LEN`. -/
def EXACT_BINS_LEN : Nat := 32

/-- Rust: `Overlay::SORTED_BINS_LEN`. -/
def SORTED_BINS_LEN : Nat := 64

/-- Rust: `Overlay::BINS_LEN = EXACT_BINS_LEN + SORTED_BINS_LEN`. -/
def BINS_LEN : Nat := EXACT_BINS_LEN + SORTED_BINS_LEN

/-- Rust: `Overlay::MIN_USER_SIZE = Chunk::MIN_SIZE - Chunk::META_SIZE = 24`. -/
def MIN_USER_SIZE : Nat := 24

/-- Rust: `Overlay::bin_index_of_size`.  `m` below is
`usize::BITS - (size >> 8).leading_zeros() - 1`, the index of the most
significant set bit of the nonzero value `size >> 8`, which equals
`Nat.log2 (size >>> 8)`. -/
def bin_index_of_size (size0 : Nat) : Nat :=
  let size := Nat.max size0 MIN_USER_SIZE
  if size >>> 8 = 0 then
    size / 8
  else if size >>> 8 ≥ 0x10000 then
    BINS_LEN - 1
  else
    let m := Nat.log2 (size >>> 8)
    EXACT_BINS_LEN + (m <<< 2) + ((size >>> (m + 6)) &&& 3)

/-- Rust: `Overlay::start_chunk`: the first chunk sits right after the bin table. -/
def start_chunk (base : Nat) : Nat := padd base (8 * BINS_LEN)

/-- Rust: `Overlay::get_bin_chunk`: read bin slot `index`, `None` when null. -/
def get_bin_chunk (m : Mem) (base index : Nat) : Option Nat :=
  let chunk_addr := readW m (padd base (8 * index))
  if chunk_addr = 0 then none else some chunk_addr

/-- Rust: `Overlay::set_bin_chunk` (null for `None`). -/
def set_bin_chunk (m : Mem) (base index : Nat) (c : Option Nat) : Mem :=
  writeW m (padd base (8 * index)) (c.getD 0)

/-- Scan of the bin slots `index, index+1, ...` (with `count` slots left)
returning the first non-null head: the `for index in .. { .. break }` loops of
`add_chunk`, `find_smallest` and `init`. -/
def scan_bins (m : Mem) (base : Nat) : Nat → Nat → Option Nat
  | _, 0 => none
  | index, count + 1 =>
    match get_bin_chunk m base index with
    | some c => some c
    | none => scan_bins m base (index + 1) count

/-- Rust: the `while !bin_chunk.is_top() && bin_chunk.get_size() <= chunk_size`
walk of `Overlay::add_chunk`; the `break` on a missing next link happens only
for the top chunk.  `fuel` bounds the walk (the source loop terminates on every
well-formed free list); `none` is fuel exhaustion. -/
def add_walk (m : Mem) (chunk_size : Nat) : Nat → Nat → Option Nat
  | 0, _ => none
  | fuel + 1, bin_chunk =>
    if ! Chunk.is_top m bin_chunk && Chunk.get_size m bin_chunk ≤ chunk_size then
      match Chunk.get_next m bin_chunk with
      | some next_chunk => add_walk m chunk_size fuel next_chunk
      | none => some bin_chunk
    else some bin_chunk

/-- Rust: `Overlay::add_chunk`.  `none` models the
`expect("top chunk always reachable from bins")` panic or fuel exhaustion. -/
def add_chunk (m : Mem) (base c fuel : Nat) : Option Mem :=
  let chunk_size := Chunk.get_size m c
  let index := bin_index_of_size (psub chunk_size Chunk.META_SIZE)
  let bin0 := get_bin_chunk m base index
  let state :=
    match bin0 with
    | some b => (m, some b)
    | none =>
      let m1 := set_bin_chunk m base index (some c)
      (m1, scan_bins m1 base (index + 1) (BINS_LEN - (index + 1)))
  match state.2 with
  | none => none
  | some b0 =>
    match add_walk state.1 chunk_size fuel b0 with
    | none => none
    | some bin_chunk =>
      let m2 := Chunk.set_next state.1 c (some bin_chunk)
      let m3 := Chunk.set_prev m2 c (Chunk.get_prev m2 bin_chunk)
      let m4 := Chunk.set_prev m3 bin_chunk (some c)
      match Chunk.get_prev m4 c with
      | some prev_chunk => some (Chunk.set_next m4 prev_chunk (some c))
      | none => some m4

/-- Rust: `Overlay::remove_chunk`.  `none` models the
`expect("top chunk never get removed")` panic. -/
def remove_chunk (m : Mem) (base c : Nat) : Option Mem :=
  match Chunk.get_next m c with
  | none => none
  | some next_chunk =>
    let m1 := Chunk.set_prev m next_chunk (Chunk.get_prev m c)
    let m2 :=
      match Chunk.get_prev m1 c with
      | some prev_chunk => Chunk.set_next m1 prev_chunk (some next_chunk)
      | none => m1
    let index := bin_index_of_size (psub (Chunk.get_size m2 c) Chunk.META_SIZE)
    if get_bin_chunk m2 base index = some c then
      some (set_bin_chunk m2 base index
        (if bin_index_of_size (Chunk.get_size m2 next_chunk) = index then
          some next_chunk
        else none))
    else some m2

/-- Rust: `Overlay::update_top_chunk`. -/
def update_top_chunk (m : Mem) (base top new_top : Nat) : Mem :=
  let m1 := Chunk.set_next m new_top none
  let m2 := Chunk.set_prev m1 new_top (Chunk.get_prev m1 top)
  let m3 :=
    match Chunk.get_prev m2 top with
    | some prev_chunk => Chunk.set_next m2 prev_chunk (some new_top)
    | none => m2
  let index := bin_index_of_size (W - 1)
  if get_bin_chunk m3 base index = some top then
    set_bin_chunk m3 base index (some new_top)
  else m3

/-- Rust: the bin-clearing loop of `Overlay::init`:
`for index in bin_index_of_size(MIN_USER_SIZE)..BINS_LEN { set_bin_chunk(index, None) }`.
`count` is the number of slots left to clear, starting at `index`. -/
def clear_bins (m : Mem) (base : Nat) : Nat → Nat → Mem
  | _, 0 => m
  | index, count + 1 => clear_bins (set_bin_chunk m base index none) base (index + 1) count

/-- Rust: `Overlay::init`.  The two `assert!`s are modelled as `none`; the
trailing sanity marker writes `0x82` to byte 0 of the space. -/
def init (m : Mem) (base len fuel : Nat) : Option Mem :=
  if ¬ (len ≥ 8 * BINS_LEN + Chunk.MIN_SIZE * 2) then none
  else if len % 8 ≠ 0 then none
  else
    let start := bin_index_of_size MIN_USER_SIZE
    let m0 := clear_bins m base start (BINS_LEN - start)
    let chunk := start_chunk base
    let chunk_size := psub (psub (padd base len) chunk) Chunk.MIN_SIZE
    let m1 := Chunk.set_in_use_and_size m0 chunk false chunk_size
    let m2 := Chunk.set_lower_in_use m1 chunk true
    let top_chunk := Chunk.get_higher_chunk m2 chunk
    let m3 := Chunk.set_in_use_and_size m2 top_chunk false Chunk.MIN_SIZE
    let m4 := Chunk.set_next m3 top_chunk none
    let m5 := Chunk.set_prev m4 top_chunk none
    let m6 := set_bin_chunk m5 base (bin_index_of_size (W - 1)) (some top_chunk)
    match add_chunk m6 base chunk fuel with
    | none => none
    | some m7 => some (writeByte m7 base 0x82)

/-- Rust: `Overlay::find_smallest`: head of the first non-empty bin at or
above the size class of `min_size`; `none` models the
`expect("top chunk always reachable from bins")` panic. -/
def find_smallest (m : Mem) (base min_size : Nat) : Option Nat :=
  scan_bins m base (bin_index_of_size min_size) (BINS_LEN - bin_index_of_size min_size)

/-- Rust: the `while user_data.is_none()` walk of `Overlay::alloc`: follow
next links until a chunk fits the layout (`ok`), or the list ends (`error`,
carrying the last chunk). -/
def alloc_walk (m : Mem) (l : Layout) : Nat → Nat → Option (Except Nat (Nat × Nat))
  | 0, _ => none
  | fuel + 1, c =>
    match Chunk.get_user_data m c l with
    | some user_data => some (.ok (c, user_data))
    | none =>
      match Chunk.get_next m c with
      | some next_chunk => alloc_walk m l fuel next_chunk
      | none => some (.error c)

/-- Rust: `Overlay::alloc`.  `Except.error` is the `Err(chunk)` result (no
memory was modified on that path), `Except.ok` the returned user pointer.
`NonNull::dangling()` for `u8` is address 1. -/
def alloc (m : Mem) (base : Nat) (l : Layout) (fuel : Nat) :
    Option (Mem × Except Nat Nat) :=
  if l.size = 0 then some (m, .ok 1)
  else
    match find_smallest m base l.size with
    | none => none
    | some c0 =>
      match alloc_walk m l fuel c0 with
      | none => none
      | some (.error c) => some (m, .error c)
      | some (.ok (chunk, user_data)) =>
        if Chunk.is_top m chunk then some (m, .error chunk)
        else
          match remove_chunk m base chunk with
          | none => none
          | some m1 =>
            match Chunk.split m1 chunk l with
            | none => none
            | some (m2, remain) =>
              let m3res :=
                match remain with
                | some remain => add_chunk m2 base remain fuel
                | none => some m2
              match m3res with
              | none => none
              | some m3 =>
                let m4 := Chunk.set_in_use_and_size m3 chunk true (Chunk.get_size m3 chunk)
                let padding := psub user_data 8
                let padding_size := psub padding chunk
                let m5 := if padding_size ≠ 0 then writeW m4 padding padding_size else m4
                some (m5, .ok user_data)

/-- Rust: `Overlay::dealloc`. -/
def dealloc (m : Mem) (base user_data : Nat) (l : Layout) (fuel : Nat) : Option Mem :=
  let c0 := Chunk.from_user_data m user_data l
  let step1 : Option (Mem × Nat) :=
    match Chunk.get_free_lower_chunk m c0 with
    | some free_lower =>
      match remove_chunk m base free_lower with
      | none => none
      | some m1 =>
        let m2 := Chunk.set_in_use_and_size m1 c0 false (Chunk.get_size m1 c0)
        some (Chunk.coalesce m2 free_lower c0, free_lower)
    | none => some (Chunk.set_in_use_and_size m c0 false (Chunk.get_size m c0), c0)
  match step1 with
  | none => none
  | some (m3, chunk) =>
    let step2 : Option Mem :=
      match Chunk.get_free_higher_chunk m3 chunk with
      | some free_higher =>
        if ! Chunk.is_top m3 free_higher then
          match remove_chunk m3 base free_higher with
          | none => none
          | some m4 => some (Chunk.coalesce m4 chunk free_higher)
        else some m3
      | none => some m3
    match step2 with
    | none => none
    | some m5 => add_chunk m5 base chunk fuel

/-- Rust: `Overlay::realloc`.  `some (m, none)` is a `None` return (fall back
to allocate-copy-free), `some (m, some p)` a successful in-place result.  The
outer `none` models a panic inside a subroutine.  The
`Layout::from_size_align(new_size, align).unwrap()` at entry panics when the
rounded size overflows `isize`. -/
def realloc (m : Mem) (base user_data : Nat) (l : Layout) (new_size fuel : Nat) :
    Option (Mem × Option Nat) :=
  if new_size > 2 ^ 63 - 1 - (l.align - 1) then none
  else
    let chunk := Chunk.from_user_data m user_data l
    let new_layout : Layout := ⟨new_size, l.align⟩
    match Chunk.get_user_data m chunk new_layout with
    | some user_data2 => some (m, some user_data2)
    | none =>
      match Chunk.get_free_higher_chunk m chunk with
      | none => some (m, none)
      | some free_higher =>
        if Chunk.is_top m free_higher
            || padd (Chunk.get_size m chunk) (Chunk.get_size m free_higher)
                < padd new_size Chunk.META_SIZE then
          some (m, none)
        else
          match remove_chunk m base free_higher with
          | none => none
          | some m1 =>
            let m2 := Chunk.coalesce m1 chunk free_higher
            match Chunk.get_user_data m2 chunk new_layout with
            | some user_data2 =>
              match Chunk.split m2 chunk new_layout with
              | none => none
              | some (m3, remain) =>
                match remain with
                | some remain =>
                  match add_chunk m3 base remain fuel with
                  | none => none
                  | some m4 => some (m4, some user_data2)
                | none => some (m3, some user_data2)
            | none => some (m2, none)

end Overlay

/-- Rust: `core::ptr::copy_nonoverlapping(src, dst, count)` at byte
granularity; all reads are from the pre-copy memory. -/
def copyN (m : Mem) (src dst : Nat) : Nat → Mem
  | 0 => m
  | n + 1 => writeByte (copyN m src dst n) (padd dst n) (readByte m (padd src n))

section MemLemmas

lemma W_eq : W = 18446744073709551616 := by norm_num [W]

lemma W_pos : 0 < W := by rw [W_eq]; norm_num

lemma padd_small {a b : Nat} (h : a + b < W) : padd a b = a + b := by
  unfold padd
  exact Nat.mod_eq_of_lt h

lemma psub_small {a b : Nat} (hb : b ≤ a) (ha : a < W) : psub a b = a - b := by
  unfold psub
  rw [W_eq] at *
  omega

lemma padd_lt (a b : Nat) : padd a b < W := Nat.mod_lt _ W_pos

lemma padd_mod (a b : Nat) : padd a b % W = padd a b :=
  Nat.mod_eq_of_lt (padd_lt a b)

lemma padd_zero (a : Nat) : padd a 0 = a % W := rfl

/-- Distinct offsets below 8 give distinct wrapped byte addresses. -/
lemma padd_off_inj {a i j : Nat} (hi : i < 8) (hj : j < 8) (hij : i ≠ j) :
    padd a i ≠ padd a j := by
  unfold padd
  rw [W_eq]
  omega

lemma readByte_writeByte (m : Mem) (a v x : Nat) :
    readByte (writeByte m a v) x = if x % W = a % W then v % 256 else readByte m x := rfl

lemma readByte_writeW (m : Mem) (a v x : Nat) :
    readByte (writeW m a v) x =
      if x % W = padd a 7 then v / 256 ^ 7 % 256
      else if x % W = padd a 6 then v / 256 ^ 6 % 256
      else if x % W = padd a 5 then v / 256 ^ 5 % 256
      else if x % W = padd a 4 then v / 256 ^ 4 % 256
      else if x % W = padd a 3 then v / 256 ^ 3 % 256
      else if x % W = padd a 2 then v / 256 ^ 2 % 256
      else if x % W = padd a 1 then v / 256 ^ 1 % 256
      else if x % W = a % W then v % 256
      else readByte m x := by
  simp only [writeW, readByte_writeByte, padd_mod]

/-- Bytes of a word value recombine to the value modulo `2^64`. -/
lemma bytes_recombine (v : Nat) :
    v % 256
      + 256 ^ 1 * (v / 256 ^ 1 % 256)
      + 256 ^ 2 * (v / 256 ^ 2 % 256)
      + 256 ^ 3 * (v / 256 ^ 3 % 256)
      + 256 ^ 4 * (v / 256 ^ 4 % 256)
      + 256 ^ 5 * (v / 256 ^ 5 % 256)
      + 256 ^ 6 * (v / 256 ^ 6 % 256)
      + 256 ^ 7 * (v / 256 ^ 7 % 256) = v % W := by
  have h : ∀ k : Nat, v % (256 ^ k * 256) = v % 256 ^ k + 256 ^ k * (v / 256 ^ k % 256) :=
    fun k => Nat.mod_mul
  have h1 := h 1
  have h2 := h 2
  have h3 := h 3
  have h4 := h 4
  have h5 := h 5
  have h6 := h 6
  have h7 := h 7
  have h0 := h 0
  rw [W_eq]
  norm_num at h0 h1 h2 h3 h4 h5 h6 h7 ⊢
  omega

lemma readByte_writeW_at {i : Nat} (m : Mem) (a v : Nat) (hi : i < 8) :
    readByte (writeW m a v) (padd a i) = v / 256 ^ i % 256 := by
  rw [readByte_writeW, padd_mod]
  have ne : ∀ j, j < 8 → i ≠ j → padd a i ≠ padd a j := fun j hj hij =>
    padd_off_inj hi hj hij
  have h0 : a % W = padd a 0 := rfl
  interval_cases i
  · rw [if_neg (ne 7 (by norm_num) (by norm_num)), if_neg (ne 6 (by norm_num) (by norm_num)),
      if_neg (ne 5 (by norm_num) (by norm_num)), if_neg (ne 4 (by norm_num) (by norm_num)),
      if_neg (ne 3 (by norm_num) (by norm_num)), if_neg (ne 2 (by norm_num) (by norm_num)),
      if_neg (ne 1 (by norm_num) (by norm_num)), ← h0, if_pos rfl]
    norm_num
  · rw [if_neg (ne 7 (by norm_num) (by norm_num)), if_neg (ne 6 (by norm_num) (by norm_num)),
      if_neg (ne 5 (by norm_num) (by norm_num)), if_neg (ne 4 (by norm_num) (by norm_num)),
      if_neg (ne 3 (by norm_num) (by norm_num)), if_neg (ne 2 (by norm_num) (by norm_num)),
      if_pos rfl]
  · rw [if_neg (ne 7 (by norm_num) (by norm_num)), if_neg (ne 6 (by norm_num) (by norm_num)),
      if_neg (ne 5 (by norm_num) (by norm_num)), if_neg (ne 4 (by norm_num) (by norm_num)),
      if_neg (ne 3 (by norm_num) (by norm_num)), if_pos rfl]
  · rw [if_neg (ne 7 (by norm_num) (by norm_num)), if_neg (ne 6 (by norm_num) (by norm_num)),
      if_neg (ne 5 (by norm_num) (by norm_num)), if_neg (ne 4 (by norm_num) (by norm_num)),
      if_pos rfl]
  · rw [if_neg (ne 7 (by norm_num) (by norm_num)), if_neg (ne 6 (by norm_num) (by norm_num)),
      if_neg (ne 5 (by norm_num) (by norm_num)), if_pos rfl]
  · rw [if_neg (ne 7 (by norm_num) (by norm_num)), if_neg (ne 6 (by norm_num) (by norm_num)),
      if_pos rfl]
  · rw [if_neg (ne 7 (by norm_num) (by norm_num)), if_pos rfl]
  · rw [if_pos rfl]

lemma readW_writeW_same (m : Mem) (a v : Nat) :
    readW (writeW m a v) a = v % W := by
  unfold readW
  have hra : readByte (writeW m a v) a = v % 256 := by
    have h0 := readByte_writeW_at m a v (by norm_num : (0:Nat) < 8)
    rw [padd_zero] at h0
    unfold readByte at h0 ⊢
    rw [Nat.mod_mod_of_dvd _ dvd_rfl] at h0
    simpa using h0
  rw [hra,
    readByte_writeW_at m a v (by norm_num : (1:Nat) < 8),
    readByte_writeW_at m a v (by norm_num : (2:Nat) < 8),
    readByte_writeW_at m a v (by norm_num : (3:Nat) < 8),
    readByte_writeW_at m a v (by norm_num : (4:Nat) < 8),
    readByte_writeW_at m a v (by norm_num : (5:Nat) < 8),
    readByte_writeW_at m a v (by norm_num : (6:Nat) < 8),
    readByte_writeW_at m a v (by norm_num : (7:Nat) < 8)]
  exact bytes_recombine v

lemma readByte_writeW_outside {m : Mem} {a v x : Nat}
    (h : ∀ i, i < 8 → x % W ≠ padd a i) :
    readByte (writeW m a v) x = readByte m x := by
  rw [readByte_writeW]
  have h0 : a % W = padd a 0 := rfl
  rw [if_neg (h 7 (by norm_num)), if_neg (h 6 (by norm_num)), if_neg (h 5 (by norm_num)),
    if_neg (h 4 (by norm_num)), if_neg (h 3 (by norm_num)), if_neg (h 2 (by norm_num)),
    if_neg (h 1 (by norm_num)), if_neg (h0 ▸ h 0 (by norm_num))]

/-- Separation of two 8-byte ranges that do not wrap. -/
lemma readW_writeW_sep {m : Mem} {a v b : Nat}
    (ha : a + 8 ≤ W) (hb : b + 8 ≤ W) (hsep : a + 8 ≤ b ∨ b + 8 ≤ a) :
    readW (writeW m a v) b = readW m b := by
  have hbyte : ∀ i, i < 8 → readByte (writeW m a v) (padd b i) = readByte m (padd b i) := by
    intro i hi
    apply readByte_writeW_outside
    intro j hj
    rw [padd_mod, padd_small (by omega), padd_small (by omega)]
    omega
  have hb0 : readByte (writeW m a v) b = readByte m b := by
    have := hbyte 0 (by norm_num)
    rw [padd_zero] at this
    unfold readByte at this ⊢
    simpa using this
  unfold readW
  rw [hb0, hbyte 1 (by norm_num), hbyte 2 (by norm_num), hbyte 3 (by norm_num),
    hbyte 4 (by norm_num), hbyte 5 (by norm_num), hbyte 6 (by norm_num), hbyte 7 (by norm_num)]

/-- Reading an untouched word across a single byte store. -/
lemma readW_writeByte_sep {m : Mem} {a v b : Nat}
    (ha : a < W) (hb : b + 8 ≤ W) (hsep : a < b ∨ b + 8 ≤ a) :
    readW (writeByte m a v) b = readW m b := by
  have hbyte : ∀ i, i < 8 → readByte (writeByte m a v) (padd b i) = readByte m (padd b i) := by
    intro i hi
    rw [readByte_writeByte]
    rw [if_neg]
    rw [padd_mod, padd_small (by omega), Nat.mod_eq_of_lt ha]
    omega
  have hb0 : readByte (writeByte m a v) b = readByte m b := by
    have := hbyte 0 (by norm_num)
    rw [padd_zero] at this
    unfold readByte at this ⊢
    simpa using this
  unfold readW
  rw [hb0, hbyte 1 (by norm_num), hbyte 2 (by norm_num), hbyte 3 (by norm_num),
    hbyte 4 (by norm_num), hbyte 5 (by norm_num), hbyte 6 (by norm_num), hbyte 7 (by norm_num)]

end MemLemmas

namespace Overlay

/-- Rust: `Overlay::alloc_in_space`.  `growFn` abstracts
`Space::grow` (argument: requested minimum size; result: the new space length
on success, memory contents preserved).  Result: new memory, new length, and
the returned pointer (0 for null).  `none` models a panic, in particular the
`expect("second allocating try always success")`. -/
def alloc_in_space (growFn : Nat → Option Nat) (m : Mem) (base len : Nat)
    (l : Layout) (fuel : Nat) : Option (Mem × Nat × Nat) :=
  match alloc m base l fuel with
  | none => none
  | some (m1, .ok user_data) => some (m1, len, user_data)
  | some (m1, .error top) =>
    let size := len
    match growFn (padd (padd (padd size l.size) l.align) Chunk.META_SIZE) with
    | none => some (m1, len, 0)
    | some new_size =>
      if new_size % 8 ≠ 0 then none
      else
        let new_top := psub (padd base new_size) Chunk.MIN_SIZE
        let m2 := Chunk.set_prev m1 new_top none
        let m3 := Chunk.set_next m2 new_top none
        let m4 := Chunk.set_in_use_and_size m3 new_top false Chunk.MIN_SIZE
        let m5 := update_top_chunk m4 base top new_top
        let m6 := Chunk.set_in_use_and_size m5 top false (psub new_size size)
        let m9res :=
          match Chunk.get_free_lower_chunk m6 top with
          | some free_lower =>
            match remove_chunk m6 base free_lower with
            | none => none
            | some m7 =>
              let m8 := Chunk.set_in_use_and_size m7 free_lower false
                (padd (Chunk.get_size m7 free_lower) (Chunk.get_size m7 top))
              add_chunk m8 base free_lower fuel
          | none => add_chunk m6 base top fuel
        match m9res with
        | none => none
        | some m9 =>
          match alloc m9 base l fuel with
          | some (m10, .ok user_data) => some (m10, new_size, user_data)
          | _ => none

/-- Rust: `Overlay::dealloc_in_space` (the release-build sanity check is a
no-op). -/
def dealloc_in_space (m : Mem) (base : Nat) (user_data : Nat) (l : Layout)
    (fuel : Nat) : Option Mem :=
  dealloc m base user_data l fuel

/-- Rust: `Overlay::realloc_in_space`: try the in-place realloc, else
allocate-copy-free; a failed fallback allocation returns null. -/
def realloc_in_space (growFn : Nat → Option Nat) (m : Mem) (base len : Nat)
    (user_data : Nat) (l : Layout) (new_size fuel : Nat) : Option (Mem × Nat × Nat) :=
  match realloc m base user_data l new_size fuel with
  | none => none
  | some (m1, some user_data2) => some (m1, len, user_data2)
  | some (m1, none) =>
    match alloc_in_space growFn m1 base len ⟨new_size, l.align⟩ fuel with
    | none => none
    | some (m2, len2, new_user_data) =>
      if new_user_data = 0 then some (m2, len2, 0)
      else
        let m3 := copyN m2 user_data new_user_data l.size
        match dealloc_in_space m3 base user_data l fuel with
        | none => none
        | some m4 => some (m4, len2, new_user_data)

end Overlay

section BinIndexFacts

open Overlay

lemma shiftRight8_eq_div (n : Nat) : n >>> 8 = n / 256 := by
  rw [Nat.shiftRight_eq_div_pow]

lemma and3_eq_mod4 (x : Nat) : x &&& 3 = x % 4 := by
  simpa using Nat.and_pow_two_sub_one_eq_mod x 2

/-- Arithmetic normal form of the bin-index computation, on the
already-clamped size. -/
def binNF (n : Nat) : Nat :=
  if n / 256 = 0 then n / 8
  else if 0x10000 ≤ n / 256 then 95
  else 32 + 4 * Nat.log 2 (n / 256) + n / 2 ^ (Nat.log 2 (n / 256) + 6) % 4

lemma bin_index_eq_binNF (s : Nat) :
    bin_index_of_size s = binNF (Nat.max s MIN_USER_SIZE) := by
  unfold bin_index_of_size binNF
  simp only [shiftRight8_eq_div, Nat.shiftRight_eq_div_pow, Nat.shiftLeft_eq, and3_eq_mod4,
    Nat.log2_eq_log_two, EXACT_BINS_LEN, BINS_LEN, SORTED_BINS_LEN, ge_iff_le]
  norm_num
  ring_nf

/-- Lower bin-band bound: sizes whose upper byte has most significant bit `m`
have their sub-index quotient in `[4, 8)`. -/
lemma band_bounds {n m : Nat} (h0 : n / 256 ≠ 0) (hm : Nat.log 2 (n / 256) = m) :
    4 ≤ n / 2 ^ (m + 6) ∧ n / 2 ^ (m + 6) < 8 := by
  have hlow : 2 ^ m ≤ n / 256 := by
    rw [← hm]; exact Nat.pow_log_le_self 2 h0
  have hhigh : n / 256 < 2 ^ (m + 1) := by
    rw [← hm]; exact Nat.lt_pow_succ_log_self (by norm_num) _
  have hklow : 2 ^ m * 256 ≤ n := by
    have := (Nat.le_div_iff_mul_le (by norm_num : 0 < 256)).1 hlow
    omega
  have hkhigh : n < 2 ^ (m + 1) * 256 := by
    by_contra hc
    push_neg at hc
    have : 2 ^ (m + 1) ≤ n / 256 := (Nat.le_div_iff_mul_le (by norm_num : 0 < 256)).2 hc
    omega
  constructor
  · have hmono : (2 ^ m * 256) / 2 ^ (m + 6) ≤ n / 2 ^ (m + 6) :=
      Nat.div_le_div_right hklow
    have hrw : 2 ^ m * 256 = 2 ^ (m + 6) * 4 := by
      rw [pow_add]; ring
    have heq : (2 ^ m * 256) / 2 ^ (m + 6) = 4 := by
      rw [hrw, Nat.mul_div_cancel_left _ (by positivity)]
    omega
  · have heq : 2 ^ (m + 1) * 256 = 2 ^ (m + 6) * 8 := by
      rw [pow_add, pow_add]; ring
    have : n / 2 ^ (m + 6) < 8 := by
      apply Nat.div_lt_of_lt_mul
      omega
    exact this

lemma binNF_sorted_le95 {n : Nat} (h0 : n / 256 ≠ 0) (h1 : ¬ 0x10000 ≤ n / 256) :
    32 + 4 * Nat.log 2 (n / 256) + n / 2 ^ (Nat.log 2 (n / 256) + 6) % 4 ≤ 95 := by
  have hlog : Nat.log 2 (n / 256) ≤ 15 := by
    have hlt : n / 256 < 2 ^ 16 := by norm_num; omega
    have := Nat.log_lt_of_lt_pow (b := 2) (x := 16) h0 hlt
    omega
  have : n / 2 ^ (Nat.log 2 (n / 256) + 6) % 4 ≤ 3 := by omega
  omega

lemma binNF_lower {n : Nat} (h24 : 24 ≤ n) : 3 ≤ binNF n := by
  unfold binNF
  by_cases h0 : n / 256 = 0
  · rw [if_pos h0]
    omega
  · rw [if_neg h0]
    by_cases h1 : 0x10000 ≤ n / 256
    · rw [if_pos h1]; omega
    · rw [if_neg h1]; omega

lemma binNF_upper (n : Nat) : binNF n ≤ 95 := by
  unfold binNF
  by_cases h0 : n / 256 = 0
  · rw [if_pos h0]
    omega
  · rw [if_neg h0]
    by_cases h1 : 0x10000 ≤ n / 256
    · rw [if_pos h1]
    · rw [if_neg h1]
      exact binNF_sorted_le95 h0 h1

lemma bin_index_ge3 (s : Nat) : 3 ≤ Overlay.bin_index_of_size s := by
  rw [bin_index_eq_binNF]
  exact binNF_lower (le_max_of_le_right (by norm_num [MIN_USER_SIZE]))

lemma bin_index_le95 (s : Nat) : Overlay.bin_index_of_size s ≤ 95 := by
  rw [bin_index_eq_binNF]
  exact binNF_upper _

/-- C10: `bin_index_of_size` always lands in `[3, 95]`, so every bin-table
access whose index it computes stays inside the 96 pointer-sized slots at the
start of the space, and slots `0..2` are never addressed. -/
theorem C10_bin_index_of_size_range (s : Nat) :
    3 ≤ Overlay.bin_index_of_size s ∧ Overlay.bin_index_of_size s ≤ 95 :=
  ⟨bin_index_ge3 s, bin_index_le95 s⟩

lemma binNF_mono {n t : Nat} (hle : n ≤ t) : binNF n ≤ binNF t := by
  have hdivle : n / 256 ≤ t / 256 := Nat.div_le_div_right hle
  by_cases h0' : t / 256 = 0
  · -- both in the exact bins
    have h0 : n / 256 = 0 := by omega
    unfold binNF
    rw [if_pos h0, if_pos h0']
    exact Nat.div_le_div_right hle
  · have hup : 32 ≤ binNF t := by
      unfold binNF
      rw [if_neg h0']
      by_cases h1' : 0x10000 ≤ t / 256
      · rw [if_pos h1']; omega
      · rw [if_neg h1']; omega
    by_cases h0 : n / 256 = 0
    · -- the smaller stays in the exact bins: its index is at most 31 < 32
      have hle31 : binNF n ≤ 31 := by
        unfold binNF
        rw [if_pos h0]
        omega
      omega
    · by_cases h1' : 0x10000 ≤ t / 256
      · -- the larger caps at the last bin
        have hcap : binNF t = 95 := by
          unfold binNF
          rw [if_neg h0', if_pos h1']
        have := binNF_upper n
        omega
      · -- both in the sorted bins
        have h1 : ¬ 0x10000 ≤ n / 256 := by omega
        have hmono : Nat.log 2 (n / 256) ≤ Nat.log 2 (t / 256) := Nat.log_mono_right hdivle
        unfold binNF
        rw [if_neg h0, if_neg h0', if_neg h1, if_neg h1']
        rcases Nat.lt_or_ge (Nat.log 2 (n / 256)) (Nat.log 2 (t / 256)) with hlt | hge
        · have hr : n / 2 ^ (Nat.log 2 (n / 256) + 6) % 4 ≤ 3 := by omega
          omega
        · have hmm : Nat.log 2 (n / 256) = Nat.log 2 (t / 256) := le_antisymm hmono hge
          rw [← hmm]
          have hbn := band_bounds h0 rfl
          have hbt := band_bounds h0' hmm.symm
          have hq : n / 2 ^ (Nat.log 2 (n / 256) + 6) ≤ t / 2 ^ (Nat.log 2 (n / 256) + 6) :=
            Nat.div_le_div_right hle
          omega

/-- C9: `bin_index_of_size` is monotone. -/
theorem C9_bin_index_of_size_monotone {s t : Nat} (h : s ≤ t) :
    Overlay.bin_index_of_size s ≤ Overlay.bin_index_of_size t := by
  rw [bin_index_eq_binNF, bin_index_eq_binNF]
  exact binNF_mono (max_le_max h le_rfl)

/-- Closed witness for C9: the monotonicity theorem applied at `10 ≤ 1000`. -/
theorem C9_witness :
    10 ≤ 1000 ∧ Overlay.bin_index_of_size 10 ≤ Overlay.bin_index_of_size 1000 :=
  ⟨by norm_num, C9_bin_index_of_size_monotone (by norm_num)⟩

end BinIndexFacts

section InitBins

open Overlay

/-- The all-zero memory. -/
def zmem : Mem := fun _ => 0

/-- A memory whose every byte is 1 (so every bin slot reads as nonzero). -/
def c6mem : Mem := fun _ => 1

/-- Slots outside the cleared range `[index, index+count)` are untouched by
the bin-clearing loop. -/
lemma clear_bins_frame (base : Nat) :
    ∀ count index (m : Mem) (b : Nat), b + 8 ≤ W →
      base + 8 * (index + count) ≤ W →
      (b + 8 ≤ base + 8 * index ∨ base + 8 * (index + count) ≤ b) →
      readW (clear_bins m base index count) b = readW m b := by
  intro count
  induction count with
  | zero => intro index m b _ _ _; rfl
  | succ k ih =>
    intro index m b hb hW hsep
    show readW (clear_bins (set_bin_chunk m base index none) base (index + 1) k) b = readW m b
    rw [ih (index + 1) _ b hb (by omega) (by omega)]
    unfold set_bin_chunk
    rw [padd_small (by omega)]
    exact readW_writeW_sep (by omega) hb (by omega)

/-- Every slot inside the cleared range reads as null afterwards. -/
lemma clear_bins_zero (base : Nat) :
    ∀ count index (m : Mem) (i : Nat), index ≤ i → i < index + count →
      base + 8 * (index + count) ≤ W →
      readW (clear_bins m base index count) (padd base (8 * i)) = 0 := by
  intro count
  induction count with
  | zero => intro index m i h1 h2 _; omega
  | succ k ih =>
    intro index m i h1 h2 hW
    show readW (clear_bins (set_bin_chunk m base index none) base (index + 1) k)
        (padd base (8 * i)) = 0
    rcases Nat.eq_or_lt_of_le h1 with heq | hlt
    · subst heq
      rw [clear_bins_frame base k (index + 1) _ _ (by rw [padd_small (by omega)]; omega)
        (by omega) (by rw [padd_small (by omega)]; omega)]
      unfold set_bin_chunk
      simp only [Option.getD_none]
      rw [readW_writeW_same]
      rw [Nat.zero_mod]
    · rw [ih (index + 1) _ i (by omega) (by omega) (by omega)]

/-- C6 (amended): the bin-clearing step of `init` nulls exactly the slots
`bin_index_of_size(MIN_USER_SIZE) = 3` through `95`; slots `0..2` are not
written.  This theorem is the positive half: every slot index in `[3, 96)`
reads as null after the clearing loop. -/
theorem C6_amended_clear_bins (m : Mem) (base i : Nat)
    (hbase : base + 8 * Overlay.BINS_LEN ≤ W) (h3 : 3 ≤ i) (h96 : i < 96) :
    Overlay.get_bin_chunk
      (Overlay.clear_bins m base (Overlay.bin_index_of_size Overlay.MIN_USER_SIZE)
        (Overlay.BINS_LEN - Overlay.bin_index_of_size Overlay.MIN_USER_SIZE)) base i = none := by
  have hidx : Overlay.bin_index_of_size Overlay.MIN_USER_SIZE = 3 := by decide
  have hlen : Overlay.BINS_LEN = 96 := by decide
  rw [hidx, hlen]
  unfold get_bin_chunk
  rw [clear_bins_zero base 93 3 m i h3 (by omega)
    (by simp only [hlen] at hbase; omega)]
  rfl

/-- Closed witness for the amended C6 theorem, at slot 3 of an all-ones space
at base 4096. -/
theorem C6_amended_witness :
    (4096 + 8 * Overlay.BINS_LEN ≤ W ∧ 3 ≤ 3 ∧ 3 < 96) ∧
      Overlay.get_bin_chunk
        (Overlay.clear_bins c6mem 4096 (Overlay.bin_index_of_size Overlay.MIN_USER_SIZE)
          (Overlay.BINS_LEN - Overlay.bin_index_of_size Overlay.MIN_USER_SIZE)) 4096 3 = none :=
  ⟨⟨by rw [W_eq]; norm_num [Overlay.BINS_LEN, Overlay.EXACT_BINS_LEN, Overlay.SORTED_BINS_LEN],
      le_refl 3, by norm_num⟩,
    C6_amended_clear_bins c6mem 4096 3
      (by rw [W_eq]; norm_num [Overlay.BINS_LEN, Overlay.EXACT_BINS_LEN, Overlay.SORTED_BINS_LEN])
      (le_refl 3) (by norm_num)⟩

/-- C6 counterexample: the claim says all 96 slots (indices `0..96`) are null
after the bin-clearing step, but the loop starts at slot 3; on a space whose
bytes are all 1, slot 0 still reads nonzero after the clearing step. -/
theorem C6_counterexample :
    Overlay.get_bin_chunk
      (Overlay.clear_bins c6mem 4096 (Overlay.bin_index_of_size Overlay.MIN_USER_SIZE)
        (Overlay.BINS_LEN - Overlay.bin_index_of_size Overlay.MIN_USER_SIZE)) 4096 0 ≠ none := by
  decide

end InitBins

section RemoveChunkBin

open Overlay

/-- A concrete state for `remove_chunk`: two free 40-byte chunks `c = 5000`
and `n = 5080` (not adjacent), linked `c.next = n`, `n.prev = c`, `n.next`
some other chunk; bin slot 4 (the class of user size 32) points at `c`;
both carry their footers. -/
def c7mem : Mem :=
  writeW (writeW (writeW (writeW (writeW (writeW (writeW (writeW (fun _ => 0)
    (4096 + 8 * 4) 5000)
    5000 40)
    (5000 + 16) 5080)
    (5000 + 32) 40)
    5080 40)
    (5080 + 8) 5000)
    (5080 + 16) 6000)
    (5080 + 32) 40

/-- C7 counterexample: `c = 5000` and its next chunk `n = 5080` are in the
same bin by user size (both `bin_index_of_size(40 - 8) = 4`), and the bin slot
points at `c`; the claim then requires `remove(c)` to store `n` in the slot,
but the source compares `bin_index_of_size(n.get_size())` — without
subtracting `META_SIZE` — which is bin 5, so the slot is cleared instead. -/
theorem C7_counterexample :
    Overlay.bin_index_of_size (psub (Chunk.get_size c7mem 5080) Chunk.META_SIZE)
        = Overlay.bin_index_of_size (psub (Chunk.get_size c7mem 5000) Chunk.META_SIZE)
      ∧ Overlay.get_bin_chunk c7mem 4096
          (Overlay.bin_index_of_size (psub (Chunk.get_size c7mem 5000) Chunk.META_SIZE))
          = some 5000
      ∧ (Overlay.remove_chunk c7mem 4096 5000).map
          (fun mr => Overlay.get_bin_chunk mr 4096
            (Overlay.bin_index_of_size (psub (Chunk.get_size c7mem 5000) Chunk.META_SIZE)))
          = some none := by
  decide

/-- C7 (amended): when `remove_chunk` unlinks a free chunk `c` whose bin slot
points at `c`, the slot is replaced with `c.next` exactly when
`bin_index_of_size` of the next chunk's FULL chunk size (not its user size,
i.e. not reduced by `META_SIZE`) equals `c`'s bin index, and cleared
otherwise.  The hypotheses are the structural conditions of a well-formed
free list around `c` (`c` has a next chunk and, in this head position, no
prev; the chunk headers, the bin slot and the link fields occupy disjoint
in-bounds ranges). -/
theorem C7_amended_remove_chunk (m : Mem) (base c next : Nat)
    (hnext : Chunk.get_next m c = some next)
    (hprev : Chunk.get_prev m c = none)
    (hcW : c + 24 ≤ W) (hnW : next + 24 ≤ W)
    (hsep : c + 24 ≤ next ∨ next + 24 ≤ c)
    (hSW : base + 8 * Overlay.bin_index_of_size (psub (Chunk.get_size m c) Chunk.META_SIZE) + 8 ≤ W)
    (hSsep : base + 8 * Overlay.bin_index_of_size (psub (Chunk.get_size m c) Chunk.META_SIZE) + 8
          ≤ next + 8
        ∨ next + 16 ≤ base + 8 * Overlay.bin_index_of_size (psub (Chunk.get_size m c) Chunk.META_SIZE))
    (hslot : Overlay.get_bin_chunk m base
        (Overlay.bin_index_of_size (psub (Chunk.get_size m c) Chunk.META_SIZE)) = some c) :
    (Overlay.remove_chunk m base c).map
        (fun mr => Overlay.get_bin_chunk mr base
          (Overlay.bin_index_of_size (psub (Chunk.get_size m c) Chunk.META_SIZE)))
      = some (if Overlay.bin_index_of_size (Chunk.get_size m next)
            = Overlay.bin_index_of_size (psub (Chunk.get_size m c) Chunk.META_SIZE)
          then some next else none) := by
  have hpc8 : padd c 8 = c + 8 := padd_small (by omega)
  have hpn8 : padd next 8 = next + 8 := padd_small (by omega)
  have hpS : padd base (8 * Overlay.bin_index_of_size (psub (Chunk.get_size m c) Chunk.META_SIZE))
      = base + 8 * Overlay.bin_index_of_size (psub (Chunk.get_size m c) Chunk.META_SIZE) :=
    padd_small (by omega)
  have hnext0 : next ≠ 0 := by
    have h := hnext
    unfold Chunk.get_next at h
    by_cases h0 : readW m (padd c 16) = 0
    · simp [h0] at h
    · simp only [h0, if_neg, if_false] at h
      intro hc
      rw [Option.some.injEq] at h
      omega
  have hprev0 : readW m (padd c 8) = 0 := by
    have h := hprev
    unfold Chunk.get_prev at h
    by_cases h0 : readW m (padd c 8) = 0
    · exact h0
    · simp [h0] at h
  -- the single link write performed before the bin update
  have hsz : Chunk.get_size (writeW m (padd next 8) 0) c = Chunk.get_size m c := by
    unfold Chunk.get_size
    rw [hpn8, readW_writeW_sep (by omega) (by omega) (by omega)]
  have hgp : Chunk.get_prev (writeW m (padd next 8) 0) c = none := by
    unfold Chunk.get_prev
    rw [hpn8, readW_writeW_sep (by omega) (by omega) (by omega)]
    simp only [hprev0, if_pos]
  have hbin : Overlay.get_bin_chunk (writeW m (padd next 8) 0) base
      (Overlay.bin_index_of_size (psub (Chunk.get_size m c) Chunk.META_SIZE)) = some c := by
    unfold Overlay.get_bin_chunk at hslot ⊢
    rw [hpS] at hslot ⊢
    rw [hpn8, readW_writeW_sep (by omega) (by omega) (by omega)]
    exact hslot
  have hszn : Chunk.get_size (writeW m (padd next 8) 0) next = Chunk.get_size m next := by
    unfold Chunk.get_size
    rw [hpn8, readW_writeW_sep (by omega) (by omega) (by omega)]
  unfold Overlay.remove_chunk
  rw [hnext]
  simp only [Chunk.set_prev, hprev, Option.getD_none]
  rw [hgp]
  simp only [hsz, hbin, if_pos, hszn]
  unfold Overlay.set_bin_chunk Overlay.get_bin_chunk
  rw [hpS]
  by_cases hcond : Overlay.bin_index_of_size (Chunk.get_size m next)
      = Overlay.bin_index_of_size (psub (Chunk.get_size m c) Chunk.META_SIZE)
  · rw [if_pos hcond]
    simp only [Option.getD_some]
    simp [readW_writeW_same, Nat.mod_eq_of_lt (show next < W by omega), hnext0]
  · rw [if_neg hcond]
    simp only [Option.getD_none]
    simp [readW_writeW_same]

/-- Closed witness for the amended C7 theorem, applied on the concrete state
`c7mem` (where the next chunk is in a different full-size bin, so the slot is
cleared). -/
theorem C7_amended_witness :
    (Chunk.get_next c7mem 5000 = some 5080
        ∧ Chunk.get_prev c7mem 5000 = none
        ∧ 5000 + 24 ≤ W ∧ 5080 + 24 ≤ W
        ∧ 5000 + 24 ≤ 5080
        ∧ 4096 + 8 * Overlay.bin_index_of_size
            (psub (Chunk.get_size c7mem 5000) Chunk.META_SIZE) + 8 ≤ W
        ∧ 4096 + 8 * Overlay.bin_index_of_size
            (psub (Chunk.get_size c7mem 5000) Chunk.META_SIZE) + 8 ≤ 5080 + 8
        ∧ Overlay.get_bin_chunk c7mem 4096
            (Overlay.bin_index_of_size (psub (Chunk.get_size c7mem 5000) Chunk.META_SIZE))
            = some 5000)
      ∧ (Overlay.remove_chunk c7mem 4096 5000).map
          (fun mr => Overlay.get_bin_chunk mr 4096
            (Overlay.bin_index_of_size (psub (Chunk.get_size c7mem 5000) Chunk.META_SIZE)))
        = some (if Overlay.bin_index_of_size (Chunk.get_size c7mem 5080)
              = Overlay.bin_index_of_size (psub (Chunk.get_size c7mem 5000) Chunk.META_SIZE)
            then some 5080 else none) :=
  ⟨by decide,
    C7_amended_remove_chunk c7mem 4096 5000 5080 (by decide) (by decide)
      (by decide) (by decide) (Or.inl (by decide)) (by decide)
      (Or.inl (by decide)) (by decide)⟩

end RemoveChunkBin

section SentinelAlloc

/-- C8 counterexample: on a freshly initialised 832-byte space at base 4096,
`alloc` with size 0 returns the sentinel (address 1), but passing that
sentinel to `dealloc` is not a no-op: the recovered "chunk" header lies at
`2^64 - 7`, the surrounding reads yield a fake free lower chunk whose next
link is null, and the call dies at the `top chunk never get removed`
expectation (`none` in the model) instead of returning with the space
unchanged. -/
theorem C8_counterexample :
    (Overlay.init zmem 4096 832 200).isSome = true
      ∧ ((Overlay.init zmem 4096 832 200).bind
          (fun m => (Overlay.alloc m 4096 ⟨0, 1⟩ 200).map
            (fun r => match r.2 with | .ok u => some u | .error _ => none)))
          = some (some 1)
      ∧ ((Overlay.init zmem 4096 832 200).bind
          (fun m => Overlay.dealloc m 4096 1 ⟨0, 1⟩ 200)).isNone = true := by
  refine ⟨by decide, by decide, by decide⟩

/-- C8 (amended): `alloc` with `size = 0` does return the non-null sentinel
(address 1, `NonNull::dangling()`), for every state; but `dealloc` has no
sentinel special case: recovering a chunk from the sentinel dereferences
address `2^64 - 7` (`1 - 8` in wrapping pointer arithmetic), outside any
managed space, so a sentinel `dealloc` is not a structured no-op (the no-op
routing lives only in the out-of-scope switchable wrapper). -/
theorem C8_amended_sentinel (m : Mem) (base : Nat) (l : Layout) (fuel : Nat)
    (hsize : l.size = 0) (halign : l.align ≤ 8) :
    Overlay.alloc m base l fuel = some (m, Except.ok 1)
      ∧ (1 : Nat) ≠ 0
      ∧ Chunk.from_user_data m 1 l = W - 7 := by
  refine ⟨?_, by norm_num, ?_⟩
  · unfold Overlay.alloc
    rw [if_pos hsize]
  · unfold Chunk.from_user_data
    rw [if_pos halign]
    unfold psub
    rw [W_eq]

/-- Closed witness for the amended C8 theorem at a concrete state and layout. -/
theorem C8_amended_witness :
    ((⟨0, 1⟩ : Layout).size = 0 ∧ (⟨0, 1⟩ : Layout).align ≤ 8)
      ∧ Overlay.alloc zmem 4096 ⟨0, 1⟩ 200 = some (zmem, Except.ok 1)
      ∧ (1 : Nat) ≠ 0
      ∧ Chunk.from_user_data zmem 1 ⟨0, 1⟩ = W - 7 :=
  ⟨⟨rfl, by norm_num⟩, C8_amended_sentinel zmem 4096 ⟨0, 1⟩ 200 rfl (by norm_num)⟩

/-- C1 counterexample: the claim quantifies over all non-null returns of
`alloc(size, align)`, explicitly including `size = 0`; but the `size = 0`
sentinel is address 1, which for `align = 16` is not aligned and does not lie
in the byte range `[4096, 4096 + 832)` of a freshly initialised space. -/
theorem C1_counterexample :
    (Overlay.init zmem 4096 832 200).isSome = true
      ∧ ((Overlay.init zmem 4096 832 200).bind
          (fun m => (Overlay.alloc m 4096 ⟨0, 16⟩ 200).map
            (fun r => match r.2 with | .ok u => some u | .error _ => none)))
          = some (some 1)
      ∧ ¬ (1 % 16 = 0 ∧ 4096 ≤ 1 ∧ 1 < 4096 + 832) := by
  refine ⟨by decide, by decide, by decide⟩

end SentinelAlloc

section AllocAligned

open Overlay

/-- Observable of an `Overlay.alloc` result: `some (some p)` when the call
returned `Ok(p)`, `some none` for `Err(top)`, `none` for a panic. -/
def alloc_result (r : Option (Mem × Except Nat Nat)) : Option (Option Nat) :=
  r.map (fun s => match s.2 with | .ok u => some u | .error _ => none)

/-- Structural well-formedness of one chunk relative to the space
`[base, base + len)` (spec §3: every chunk size is at least `MIN_CHUNK` and
the chunk lies inside the chunk region after the 96-slot bin table). -/
def chunk_ok (m : Mem) (base len c : Nat) : Prop :=
  base + 8 * Overlay.BINS_LEN ≤ c
    ∧ Chunk.MIN_SIZE ≤ Chunk.get_size m c
    ∧ c + Chunk.get_size m c ≤ base + len

instance (m : Mem) (base len c : Nat) : Decidable (chunk_ok m base len c) := by
  unfold chunk_ok; infer_instance

/-- Spec §3 invariants restricted to what the allocation search traverses:
every bin head is a well-placed chunk, and well-placedness is closed under
the free-list `next` links. -/
def free_chunks_ok (m : Mem) (base len : Nat) : Prop :=
  (∀ i c, i < Overlay.BINS_LEN → Overlay.get_bin_chunk m base i = some c →
      chunk_ok m base len c)
    ∧ ∀ c n, chunk_ok m base len c → Chunk.get_next m c = some n →
        chunk_ok m base len n

lemma scan_bins_mem {m : Mem} {base : Nat} :
    ∀ count index c, Overlay.scan_bins m base index count = some c →
      ∃ j, index ≤ j ∧ j < index + count ∧ Overlay.get_bin_chunk m base j = some c := by
  intro count
  induction count with
  | zero => intro index c h; cases h
  | succ k ih =>
    intro index c h
    unfold Overlay.scan_bins at h
    cases hbin : Overlay.get_bin_chunk m base index with
    | some b =>
      rw [hbin] at h
      refine ⟨index, le_rfl, by omega, ?_⟩
      cases h
      exact hbin
    | none =>
      rw [hbin] at h
      obtain ⟨j, h1, h2, h3⟩ := ih (index + 1) c h
      exact ⟨j, by omega, by omega, h3⟩

lemma alloc_walk_ok {m : Mem} {base len : Nat} {l : Layout}
    (hWF : free_chunks_ok m base len) :
    ∀ fuel c chunk ud, chunk_ok m base len c →
      Overlay.alloc_walk m l fuel c = some (.ok (chunk, ud)) →
      chunk_ok m base len chunk ∧ Chunk.get_user_data m chunk l = some ud := by
  intro fuel
  induction fuel with
  | zero => intro c chunk ud _ h; cases h
  | succ k ih =>
    intro c chunk ud hok h
    unfold Overlay.alloc_walk at h
    cases hud : Chunk.get_user_data m c l with
    | some u =>
      rw [hud] at h
      simp only [Option.some.injEq, Except.ok.injEq, Prod.mk.injEq] at h
      obtain ⟨rfl, rfl⟩ := h
      exact ⟨hok, hud⟩
    | none =>
      rw [hud] at h
      cases hnx : Chunk.get_next m c with
      | some n =>
        rw [hnx] at h
        exact ih n chunk ud (hWF.2 c n hok hnx) h
      | none =>
        rw [hnx] at h
        simp at h

lemma align_offset_lt (a : Nat) {al : Nat} (h : 0 < al) : align_offset a al < al :=
  Nat.mod_lt _ h

lemma align_offset_aligned (a : Nat) {al : Nat} (h : 0 < al) :
    (a + align_offset a al) % al = 0 := by
  unfold align_offset
  rcases Nat.eq_zero_or_pos (a % al) with h0 | hpos
  · rw [h0, Nat.sub_zero, Nat.mod_self, Nat.add_zero]
    exact h0
  · have hlt : a % al < al := Nat.mod_lt _ h
    have h1 : (al - a % al) % al = al - a % al := Nat.mod_eq_of_lt (by omega)
    rw [h1]
    have hdm := Nat.div_add_mod a al
    have h2 : a + (al - a % al) = al * (a / al) + al := by omega
    rw [h2, ← Nat.mul_succ]
    exact Nat.mul_mod_right al (a / al + 1)

/-- Unpacking a successful `get_user_data`: the returned pointer is the
aligned address above the header, and it fits inside the chunk. -/
lemma get_user_data_spec {m : Mem} {c : Nat} {l : Layout} {ud : Nat}
    (h : Chunk.get_user_data m c l = some ud)
    (hsz : Chunk.MIN_SIZE ≤ Chunk.get_size m c)
    (hszW : c + Chunk.get_size m c < W)
    (hla : 0 < l.align)
    (hlsW : l.size + l.align ≤ W) :
    ud = c + 8 + align_offset (c + 8) l.align
      ∧ l.size + align_offset (c + 8) l.align ≤ Chunk.get_size m c - 8 := by
  have hm8 : Chunk.META_SIZE = 8 := rfl
  have hminW : Chunk.MIN_SIZE = 32 := rfl
  have hc8 : padd c 8 = c + 8 := padd_small (by omega)
  have hao : align_offset (c + 8) l.align < l.align := align_offset_lt _ hla
  have hps : psub (Chunk.get_size m c) Chunk.META_SIZE = Chunk.get_size m c - 8 := by
    rw [hm8]
    exact psub_small (by omega) (by omega)
  have hpa : padd l.size (align_offset (c + 8) l.align)
      = l.size + align_offset (c + 8) l.align := padd_small (by omega)
  unfold Chunk.get_user_data at h
  simp only [hc8] at h
  rw [hps, hpa] at h
  by_cases hgt : l.size + align_offset (c + 8) l.align > Chunk.get_size m c - 8
  · rw [if_pos hgt] at h
    cases h
  · rw [if_neg hgt] at h
    have hpa2 : padd (c + 8) (align_offset (c + 8) l.align)
        = c + 8 + align_offset (c + 8) l.align := padd_small (by omega)
    rw [hpa2] at h
    simp only [Option.some.injEq] at h
    omega

/-- Core bound for a successful allocation on a state satisfying the free
list placement invariants: the pointer is aligned, above the bin table, and
its extent stays inside the space. -/
lemma alloc_ok_bounds (m : Mem) (base len : Nat) (l : Layout) (fuel p : Nat)
    (hWF : free_chunks_ok m base len)
    (hlen : base + len < W)
    (hla : 0 < l.align)
    (hl : 0 < l.size)
    (hlsW : l.size + l.align ≤ W)
    (hres : alloc_result (Overlay.alloc m base l fuel) = some (some p)) :
    p % l.align = 0 ∧ base + 8 * Overlay.BINS_LEN + 8 ≤ p ∧ p + l.size ≤ base + len := by
  unfold Overlay.alloc at hres
  rw [if_neg (by omega)] at hres
  split at hres
  · simp [alloc_result] at hres
  · rename_i c0 hfind
    have hc0 : chunk_ok m base len c0 := by
      unfold Overlay.find_smallest at hfind
      obtain ⟨j, hj1, hj2, hjbin⟩ := scan_bins_mem _ _ _ hfind
      have hble : Overlay.bin_index_of_size l.size ≤ 95 := bin_index_le95 l.size
      have hBL : Overlay.BINS_LEN = 96 := rfl
      exact hWF.1 j c0 (by omega) hjbin
    split at hres
    · simp [alloc_result] at hres
    · simp [alloc_result] at hres
    · rename_i chunk ud hwalk
      have hpair := alloc_walk_ok hWF fuel c0 chunk ud hc0 hwalk
      obtain ⟨hcok, hud⟩ := hpair
      have hp : ud = p := by
        split at hres
        · simp [alloc_result] at hres
        · split at hres
          · simp [alloc_result] at hres
          · rename_i m1 hrm
            split at hres
            · simp [alloc_result] at hres
            · rename_i m2 remain hsp
              cases remain with
              | some rem =>
                cases hadd : Overlay.add_chunk m2 base rem fuel with
                | none => simp [alloc_result, hadd] at hres
                | some m3 =>
                  simp [alloc_result, hadd] at hres
                  omega
              | none =>
                simp [alloc_result] at hres
                omega
      subst hp
      obtain ⟨hud_eq, hfit⟩ := get_user_data_spec hud hcok.2.1
        (by have h3 := hcok.2.2; omega) hla hlsW
      have hmin : Chunk.MIN_SIZE = 32 := rfl
      have hbins : Overlay.BINS_LEN = 96 := rfl
      refine ⟨?_, ?_, ?_⟩
      · rw [hud_eq]
        exact align_offset_aligned (chunk + 8) hla
      · have h1 := hcok.1
        have h2 := hcok.2.1
        have h3 := hcok.2.2
        omega
      · have h2 := hcok.2.1
        have h3 := hcok.2.2
        omega

/-- C1 (amended): for `size > 0`, every `Ok` pointer returned by
`Overlay.alloc` on a state satisfying the spec §3 free-list placement
invariants is aligned to the layout and lies inside the space's byte range
(the `size = 0` sentinel, address 1, is the exception shown in the
counterexample).  The grow path ends in exactly such an `Overlay.alloc` call
on the post-grow state with the grown `len`, so its returned pointers are
covered with the grown bounds. -/
theorem C1_amended_alloc (m : Mem) (base len : Nat) (l : Layout) (fuel p : Nat)
    (hWF : free_chunks_ok m base len)
    (hlen : base + len < W)
    (hla : 0 < l.align)
    (hl : 0 < l.size)
    (hlsW : l.size + l.align ≤ W)
    (hres : alloc_result (Overlay.alloc m base l fuel) = some (some p)) :
    p % l.align = 0 ∧ base ≤ p ∧ p + l.size ≤ base + len := by
  have h := alloc_ok_bounds m base len l fuel p hWF hlen hla hl hlsW hres
  exact ⟨h.1, by omega, h.2.2⟩

/-- A concrete well-formed state, mirroring the space produced by `init` on an
832-byte zeroed space at base 4096: a 32-byte free chunk at 4864 (bin 3) and
the minimum top chunk at 4896 (bin 95), doubly linked. -/
def c1mem : Mem :=
  writeW (writeW (writeW (writeW (writeW (writeW (writeW (fun _ => 0)
    (4096 + 8 * 3) 4864)
    (4096 + 8 * 95) 4896)
    4864 34)
    (4864 + 16) 4896)
    (4864 + 24) 32)
    4896 32)
    (4896 + 8) 4864

lemma c1mem_bins : ∀ i, i < 96 →
    ((Overlay.get_bin_chunk c1mem 4096 i).map
      (fun c => decide (chunk_ok c1mem 4096 832 c))).getD true = true := by decide

lemma c1mem_closure : ∀ d, d < 33 →
    (¬ chunk_ok c1mem 4096 832 (4864 + d))
      ∨ ((Chunk.get_next c1mem (4864 + d)).map
          (fun n => decide (chunk_ok c1mem 4096 832 n))).getD true = true := by decide

lemma c1mem_wf : free_chunks_ok c1mem 4096 832 := by
  constructor
  · intro i c hi hbin
    have hBL : Overlay.BINS_LEN = 96 := rfl
    have h := c1mem_bins i (by omega)
    rw [hbin] at h
    simp at h
    exact h
  · intro c n hok hnx
    have h1 : 4096 + 8 * Overlay.BINS_LEN ≤ c := hok.1
    have h2 : Chunk.MIN_SIZE ≤ Chunk.get_size c1mem c := hok.2.1
    have h3 : c + Chunk.get_size c1mem c ≤ 4096 + 832 := hok.2.2
    have hBL : (4096 : Nat) + 8 * Overlay.BINS_LEN = 4864 := rfl
    have hMS : Chunk.MIN_SIZE = 32 := rfl
    have hce := c1mem_closure (c - 4864) (by omega)
    have hc' : 4864 + (c - 4864) = c := by omega
    rw [hc'] at hce
    rcases hce with hfalse | hnext_ok
    · exact absurd hok hfalse
    · rw [hnx] at hnext_ok
      simp at hnext_ok
      exact hnext_ok

/-- Closed witness for the amended C1 theorem: allocating 5 bytes with
alignment 1 on the concrete well-formed state returns pointer 4872, aligned
and inside `[4096, 4096 + 832)`. -/
theorem C1_amended_witness :
    (free_chunks_ok c1mem 4096 832
        ∧ 4096 + 832 < W
        ∧ 0 < (Layout.mk 5 1).align
        ∧ 0 < (Layout.mk 5 1).size
        ∧ (Layout.mk 5 1).size + (Layout.mk 5 1).align ≤ W
        ∧ alloc_result (Overlay.alloc c1mem 4096 ⟨5, 1⟩ 200) = some (some 4872))
      ∧ (4872 % (Layout.mk 5 1).align = 0 ∧ 4096 ≤ 4872
          ∧ 4872 + (Layout.mk 5 1).size ≤ 4096 + 832) :=
  ⟨⟨c1mem_wf, by rw [W_eq]; norm_num, by norm_num, by norm_num, by rw [W_eq]; norm_num,
      by decide⟩,
    C1_amended_alloc c1mem 4096 832 ⟨5, 1⟩ 200 4872 c1mem_wf (by rw [W_eq]; norm_num)
      (by norm_num) (by norm_num) (by rw [W_eq]; norm_num) (by decide)⟩

end AllocAligned

end Simpile
